import Mathlib

/-!
Verification of the hivemind-cli training scripts.

This file gives a shallow embedding of the two scripts
`src/lib/training/download_data.py` (the Data Preparer) and
`src/lib/training/sentiment.py` (the Trainer), and proves properties of the
embedded definitions.  External collaborators (HTTP retrieval, JSON parsing,
the ML framework) are modelled as inputs: downloaded file contents come from
an environment record, parsed JSONL lines are given as an inductive type of
parse outcomes, and per-epoch validation F1 values are an input sequence.
-/

namespace DownloadData

/-- One record of the mock dataset written by `main` in `download_data.py`
when the manifest's URL list is empty.  The script writes each record as a
literal JSON line; JSON serialization is external, so we keep the record
structured with its `text` and `label` fields. -/
structure MockRecord where
  text : String
  label : Int
deriving DecidableEq

/-- The four template records from `download_data.py` lines 70-75
(in source order: positive 1, negative 0, positive 1, negative 0). -/
def mockTemplates : List MockRecord :=
  [⟨"This is a positive example", 1⟩,
   ⟨"This is a negative example", 0⟩,
   ⟨"Another positive case", 1⟩,
   ⟨"Another negative case", 0⟩]

/-- The mock dataset: `mock_data = [...] * 25` in the source, i.e. the four
templates repeated 25 times, giving 100 lines. -/
def mockData : List MockRecord := (List.replicate 25 mockTemplates).flatten

/-- A line of a dataset file on disk: either an opaque line of a downloaded
shard (its bytes come from the network, which we do not model), or one of the
mock records serialized by the mock-dataset path. -/
inductive Line
  | raw (s : String)
  | mock (r : MockRecord)
deriving DecidableEq

/-- Embedding of `combine_jsonl_files` (`download_data.py` lines 35-47).
Each input file is `some lines` if it exists (with its list of lines) and
`none` if missing; existing files have their lines appended in order to the
output, missing files are skipped with a warning. -/
def combine_jsonl_files (input_files : List (Option (List Line))) : List Line :=
  input_files.foldl
    (fun outf f =>
      match f with
      | some lines => outf ++ lines
      | none => outf)
    []

/-- The environment a run of the Preparer's `main` observes:
the result of loading `/workspace/data_access.json` (`none` when the load
raises, otherwise the manifest's URL list, with a missing `urls` key already
defaulted to `[]` by `data_config.get`), and the outcome of
`download_file` for the shard at each index and URL (`none` on failure,
otherwise the lines written to `/data/dataset_{index}.jsonl`). -/
structure PrepEnv where
  manifest : Option (List String)
  download : Nat → String → Option (List Line)

/-- The contents of the successfully downloaded shard files, in manifest
order: the `downloaded_files` list of `main` (lines 83-88), resolved to the
contents of the files it names. -/
def downloadedFiles (env : PrepEnv) (urls : List String) : List (List Line) :=
  urls.enum.filterMap (fun p => env.download p.1 p.2)

/-- Observable outcome of a run of the Preparer's `main`: the returned exit
code, and the contents of `/data/combined.jsonl` if this run wrote it
(`none` when the run never reaches a write of that path). -/
structure PrepResult where
  exitCode : Nat
  combined : Option (List Line)
deriving DecidableEq

/-- Embedding of `main` in `download_data.py` (lines 50-112).
The branches mirror the source: manifest load failure returns 1; an empty
URL list writes the mock dataset and returns 0; otherwise each URL is
attempted in order, and if no download succeeded the function returns 1
without reaching the combine step; otherwise the downloaded shards (all of
which exist) are combined, the empty-combined-file check returns 1, and
otherwise the run returns 0. -/
def main (env : PrepEnv) : PrepResult :=
  match env.manifest with
  | none => ⟨1, none⟩
  | some urls =>
    if urls = [] then ⟨0, some (mockData.map Line.mock)⟩
    else
      let files := downloadedFiles env urls
      if files = [] then ⟨1, none⟩
      else
        let combined := combine_jsonl_files (files.map some)
        if combined = [] then ⟨1, some combined⟩
        else ⟨0, some combined⟩

end DownloadData

namespace Sentiment

/-- A Python label value as it appears in a parsed JSONL record of
`sentiment.py`: a string or an integer. -/
inductive PyLabel
  | str (s : String)
  | int (n : Int)
deriving DecidableEq

/-- The `isinstance(label, str)` test used at `sentiment.py` line 103. -/
def PyLabel.isStr : PyLabel → Bool
  | .str _ => true
  | .int _ => false

/-- Outcome of `json.loads` plus the two field lookups on one input line of
`load_data` (`sentiment.py` lines 37-43): `bad` when `json.loads` raises (or
the parsed value is not an object, so the first subscript raises), otherwise
the parsed object's optional `text` and `label` fields. -/
inductive JsonLine
  | bad
  | obj (text : Option String) (label : Option PyLabel)
deriving DecidableEq

/-- Embedding of the `jsonl` branch of `load_data` (`sentiment.py` lines
35-44).  Mirrors the source's statement order inside the `try` block: for
each line, `texts.append(obj['text'])` runs first, then
`labels.append(obj['label'])`; an exception at any point is caught and the
rest of that line's processing is skipped.  In particular a line whose object
has a `text` field but no `label` field appends to `texts` and then raises
`KeyError` before appending to `labels`.  (The `csv` branch delegates wholly
to pandas and is not modelled.) -/
def load_data (lines : List JsonLine) : List String × List PyLabel :=
  lines.foldl
    (fun acc line =>
      match line with
      | .bad => acc
      | .obj none _ => acc
      | .obj (some t) none => (acc.1 ++ [t], acc.2)
      | .obj (some t) (some l) => (acc.1 ++ [t], acc.2 ++ [l]))
    ([], [])

/-- Model of Python's built-in `int()` applied to the characters of a string:
all characters must be decimal digits and there must be at least one. -/
def digitsToNat (cs : List Char) : Option Nat :=
  if cs ≠ [] ∧ cs.all Char.isDigit then
    some (cs.foldl (fun a c => a * 10 + (c.toNat - 48)) 0)
  else none

/-- Model of Python's built-in `int()` on a string (as used by the numeric
label branch of `train`): an optional sign followed by decimal digits parses
to the corresponding integer, anything else raises `ValueError` (`none`). -/
def pyIntOfString (s : String) : Option Int :=
  match s.data with
  | '-' :: rest => (digitsToNat rest).map (fun n => -(n : Int))
  | '+' :: rest => (digitsToNat rest).map (fun n => (n : Int))
  | cs => (digitsToNat cs).map (fun n => (n : Int))

/-- Model of Python's `int(label)` for a label value: an `int` is returned
unchanged, a `str` is parsed as an integer literal (raising, i.e. `none`, when
it is not numeric). -/
def pyInt : PyLabel → Option Int
  | .int n => some n
  | .str s => pyIntOfString s

/-- The list comprehension `[int(label) for label in labels]` of
`sentiment.py` line 117: coerce every label, raising (`none`) at the first
label on which `int()` raises. -/
def coerceInts : List PyLabel → Option (List Int)
  | [] => some []
  | l :: rest =>
    match pyInt l with
    | none => none
    | some n => (coerceInts rest).map (fun t => n :: t)

/-- The field access `l.s` for string labels, used to collect the string
values of an all-string label list. -/
def getStr : PyLabel → Option String
  | .str s => some s
  | .int _ => none

/-- Embedding of `unique_labels = sorted(set(labels))` for string labels
(`sentiment.py` line 104): the distinct label values in sorted order. -/
def unique_labels (l : List String) : List String :=
  l.dedup.insertionSort (fun a b => a ≤ b)

/-- Embedding of `unique_labels = sorted(set(labels))` for integer labels
(`sentiment.py` line 118). -/
def unique_labels_int (l : List Int) : List Int :=
  l.dedup.insertionSort (fun a b => a ≤ b)

/-- Embedding of the dict comprehension
`label_to_id = {label: i for i, label in enumerate(unique_labels)}`
(`sentiment.py` line 105), as the association list of (label, id) pairs in
enumeration order. -/
def label_to_id (l : List String) : List (String × Nat) :=
  (unique_labels l).enum.map (fun p => (p.2, p.1))

/-- The exceptions the label-normalization block of `train` can raise:
`labels[0]` on an empty list (`IndexError`), `sorted` on a set mixing
strings with non-strings (`TypeError`), and `int()` on a non-numeric string
(`ValueError`). -/
inductive TrainError
  | indexError
  | typeError
  | valueError
deriving DecidableEq

/-- Embedding of the label-normalization block of `train` (`sentiment.py`
lines 102-126).  The branch is chosen by `isinstance(labels[0], str)`; on an
empty list that subscript itself raises.  The string branch sorts the
distinct labels — which raises `TypeError` as soon as a non-string label must
be compared with a string, i.e. exactly when the list mixes strings with
non-strings — and remaps each label to its index in the sorted distinct list
(the `label_to_id` dict lookup).  The numeric branch coerces every label with
`int()`.  Both branches then compute `detected_num_labels` as the length of
the sorted distinct list and overwrite `config['num_labels']` with it when
the configured value differs.  Returns the normalized integer label list and
the resulting `config['num_labels']`. -/
def normalizeLabels (labels : List PyLabel) (cfgNumLabels : Int) :
    Except TrainError (List Int × Int) :=
  match labels with
  | [] => .error .indexError
  | .str _ :: _ =>
    if labels.all PyLabel.isStr then
      let ss := labels.filterMap getStr
      let u := unique_labels ss
      let detected : Int := u.length
      .ok (ss.map (fun s => (u.indexOf s : Int)),
        if cfgNumLabels ≠ detected then detected else cfgNumLabels)
    else .error .typeError
  | .int _ :: _ =>
    match coerceInts labels with
    | some ints =>
      let u := unique_labels_int ints
      let detected : Int := u.length
      .ok (ints, if cfgNumLabels ≠ detected then detected else cfgNumLabels)
    | none => .error .valueError

/-- Observable outcome of the epoch loop of `train` (`sentiment.py` lines
158-217): the checkpoint writes to `best_model.pt`, as the ordered list of
(epoch index, F1 value saved) pairs, and the number of epochs that actually
ran before the loop ended. -/
structure LoopResult where
  checkpoints : List (Nat × ℚ)
  epochsRun : Nat
deriving DecidableEq

/-- One-epoch-at-a-time embedding of the epoch loop of `train`
(`sentiment.py` lines 158-217), with the per-epoch validation F1 values
(computed by the external metric library) supplied as the sequence `f1`.
Arguments after `patience` are: remaining epochs of `range(config.epochs)`,
current epoch index, `best_val_f1`, `patience_counter`, and the accumulated
checkpoint writes (most recent first).  Mirrors the source: on
`f1 > best_val_f1` save a checkpoint and reset the counter to 0, otherwise
increment the counter; then break when the counter has reached the
patience. -/
def runEpochs (f1 : Nat → ℚ) (patience : Nat) :
    Nat → Nat → ℚ → Nat → List (Nat × ℚ) → LoopResult
  | 0, e, _, _, acc => ⟨acc.reverse, e⟩
  | fuel + 1, e, best, counter, acc =>
    if best < f1 e then
      if patience ≤ 0 then ⟨((e, f1 e) :: acc).reverse, e + 1⟩
      else runEpochs f1 patience fuel (e + 1) (f1 e) 0 ((e, f1 e) :: acc)
    else
      if patience ≤ counter + 1 then ⟨acc.reverse, e + 1⟩
      else runEpochs f1 patience fuel (e + 1) best (counter + 1) acc

/-- The epoch loop of `train`, started as in the source with
`best_val_f1 = 0`, `patience_counter = 0`, epoch 0 and no checkpoint yet. -/
def trainLoop (f1 : Nat → ℚ) (epochs patience : Nat) : LoopResult :=
  runEpochs f1 patience epochs 0 0 0 []

/-- The value of `best_val_f1` at the start of epoch `e` when every epoch
before `e` has executed: 0 joined by `max` with the F1 of each earlier
epoch. -/
def bestBefore (f1 : Nat → ℚ) (e : Nat) : ℚ :=
  (List.range e).foldl (fun b i => max b (f1 i)) 0

end Sentiment

section PreparerTheorems

open DownloadData

/-- Auxiliary: a `filterMap` whose function is pointwise `some` of `g` is a
`map` of `g`. -/
theorem filterMap_eq_map_of_eq_some {α β : Type} (f : α → Option β) (g : α → β) :
    ∀ l : List α, (∀ a ∈ l, f a = some (g a)) → l.filterMap f = l.map g := by
  intro l
  induction l with
  | nil => intro _; rfl
  | cons a t ih =>
    intro h
    rw [List.filterMap_cons, h a (by simp), List.map_cons,
      ih (fun b hb => h b (by simp [hb]))]

/-- Auxiliary: combining shard files that all exist concatenates their
contents in order. -/
theorem combine_jsonl_files_all_present (shards : List (List Line)) :
    combine_jsonl_files (shards.map some) = shards.flatten := by
  unfold combine_jsonl_files
  suffices h : ∀ (l : List (List Line)) (acc : List Line),
      (l.map some).foldl
        (fun outf f => match f with | some lines => outf ++ lines | none => outf)
        acc = acc ++ l.flatten by
    simpa using h shards []
  intro l
  induction l with
  | nil => intro acc; simp
  | cons s t ih => intro acc; simp [ih, List.append_assoc]

/-- C2: with an empty URL list in the manifest, the Preparer writes the mock
dataset to `/data/combined.jsonl` — exactly 100 lines cycling the four fixed
template records, whose labels alternate 1,0,1,0,... — and returns exit
code 0. -/
theorem c2_empty_manifest_mock_dataset (d : Nat → String → Option (List Line)) :
    main ⟨some [], d⟩ = ⟨0, some (mockData.map Line.mock)⟩ ∧
    mockData.length = 100 ∧
    mockData.map MockRecord.label
      = (List.range 100).map (fun i => if i % 2 = 0 then (1 : Int) else 0) := by
  refine ⟨rfl, rfl, by decide⟩

/-- C4: when the manifest has at least one URL and every download fails, the
Preparer returns exit code 1 and never writes `/data/combined.jsonl` (the
combine step is not reached). -/
theorem c4_all_downloads_fail (env : PrepEnv) (urls : List String)
    (hm : env.manifest = some urls) (hne : urls ≠ [])
    (hd : ∀ p ∈ urls.enum, env.download p.1 p.2 = none) :
    main env = ⟨1, none⟩ := by
  have hfiles : downloadedFiles env urls = [] := by
    unfold downloadedFiles
    exact List.filterMap_eq_nil_iff.mpr hd
  unfold main
  rw [hm]
  simp [hne, hfiles]

/-- Witness for C4 at a concrete environment with one URL whose download
fails. -/
theorem c4_witness :
    main ⟨some ["http://a.example/x.jsonl"], fun _ _ => none⟩ = ⟨1, none⟩ :=
  c4_all_downloads_fail _ ["http://a.example/x.jsonl"] rfl (by decide)
    (fun _ _ => rfl)

/-- C5: when the manifest has N URLs (N at least 1) and every download
succeeds — the shard at index i having lines `sh i` — the combined output
file is the raw line-level concatenation of the N shard files in manifest
order, and its line count is the sum of the N shards' line counts. -/
theorem c5_combined_concatenates_shards (env : PrepEnv) (urls : List String)
    (sh : Nat → List Line) (hm : env.manifest = some urls) (hne : urls ≠ [])
    (hd : ∀ p ∈ urls.enum, env.download p.1 p.2 = some (sh p.1)) :
    (main env).combined = some (((List.range urls.length).map sh).flatten) ∧
    (((List.range urls.length).map sh).flatten).length
      = (((List.range urls.length).map sh).map List.length).sum := by
  have hfiles : downloadedFiles env urls = (List.range urls.length).map sh := by
    unfold downloadedFiles
    rw [filterMap_eq_map_of_eq_some (fun p => env.download p.1 p.2)
      (fun p => sh p.1) urls.enum hd]
    have h2 : urls.enum.map (fun p => sh p.1) = (urls.enum.map Prod.fst).map sh := by
      rw [List.map_map]
      rfl
    rw [h2, List.enum_map_fst]
  have hfne : downloadedFiles env urls ≠ [] := by
    rw [hfiles]
    simp only [ne_eq, List.map_eq_nil_iff, List.range_eq_nil]
    intro h
    exact hne (List.eq_nil_of_length_eq_zero h)
  have hmain : (main env).combined
      = some (combine_jsonl_files ((downloadedFiles env urls).map some)) := by
    by_cases hc : combine_jsonl_files ((downloadedFiles env urls).map some) = []
    · simp [main, hm, hne, hfne, hc]
    · simp [main, hm, hne, hfne, hc]
  refine ⟨?_, List.length_flatten _⟩
  rw [hmain, hfiles, combine_jsonl_files_all_present]

/-- Witness for C5 at a concrete environment with two URLs whose downloads
both succeed. -/
theorem c5_witness :
    (main ⟨some ["http://a.example/1", "http://a.example/2"],
        fun i _ => some (if i = 0 then [Line.raw "x"] else [Line.raw "y", Line.raw "z"])⟩).combined
      = some (((List.range (["http://a.example/1", "http://a.example/2"] : List String).length).map
          (fun i => if i = 0 then [Line.raw "x"] else [Line.raw "y", Line.raw "z"])).flatten) ∧
    (((List.range (["http://a.example/1", "http://a.example/2"] : List String).length).map
        (fun i => if i = 0 then [Line.raw "x"] else [Line.raw "y", Line.raw "z"])).flatten).length
      = (((List.range (["http://a.example/1", "http://a.example/2"] : List String).length).map
          (fun i => if i = 0 then [Line.raw "x"] else [Line.raw "y", Line.raw "z"])).map List.length).sum :=
  c5_combined_concatenates_shards _ _ _ rfl (by decide) (by decide)

/-- C3: the Preparer's `main` returns only 0 or 1, and returns 1 exactly when
the manifest cannot be loaded, or the URL list is nonempty and either zero
downloads succeed or the concatenated combined file is empty; hence it
returns 0 exactly on success, including the mock-dataset path. -/
theorem c3_exit_code_contract (env : PrepEnv) :
    ((main env).exitCode = 0 ∨ (main env).exitCode = 1) ∧
    ((main env).exitCode = 1 ↔
      env.manifest = none ∨
      ∃ urls, env.manifest = some urls ∧ urls ≠ [] ∧
        (downloadedFiles env urls = [] ∨
          combine_jsonl_files ((downloadedFiles env urls).map some) = [])) := by
  match hm : env.manifest with
  | none => simp [main, hm]
  | some urls =>
    by_cases hu : urls = []
    · subst hu
      simp [main, hm]
    · by_cases hf : downloadedFiles env urls = []
      · simp [main, hm, hu, hf]
      · by_cases hc : combine_jsonl_files ((downloadedFiles env urls).map some) = []
        · simp [main, hm, hu, hf, hc]
        · simp [main, hm, hu, hf, hc]

end PreparerTheorems

section TrainerTheorems

open Sentiment

/-- C1 (code bug exhibit): a JSONL line that parses and has a `text` field
but lacks the `label` field is not skipped entirely — `load_data` appends its
text to `texts` and nothing to `labels` (the `KeyError` is raised only after
`texts.append` has run), so the two returned lists end up with different
lengths and later positions no longer belong to the same input line. -/
theorem c1_missing_label_misaligns_lists :
    load_data [JsonLine.obj (some "a") none] = (["a"], []) ∧
    (load_data [JsonLine.obj (some "a") none]).1.length ≠
      (load_data [JsonLine.obj (some "a") none]).2.length := by
  exact ⟨rfl, by decide⟩

/-- Auxiliary: the sorted distinct-label list depends only on the multiset of
labels. -/
theorem unique_labels_congr_perm (l1 l2 : List String) (h : l1.Perm l2) :
    unique_labels l1 = unique_labels l2 := by
  unfold unique_labels
  have hp : List.Perm (l1.dedup.insertionSort (fun a b => a ≤ b))
      (l2.dedup.insertionSort (fun a b => a ≤ b)) :=
    (List.perm_insertionSort _ _).trans
      (h.dedup.trans (List.perm_insertionSort _ _).symm)
  have hs1 : List.Sorted (fun a b : String => a ≤ b)
      (l1.dedup.insertionSort (fun a b => a ≤ b)) :=
    List.sorted_insertionSort _ _
  have hs2 : List.Sorted (fun a b : String => a ≤ b)
      (l2.dedup.insertionSort (fun a b => a ≤ b)) :=
    List.sorted_insertionSort _ _
  exact List.eq_of_perm_of_sorted hp hs1 hs2

/-- C6: label normalization for string labels is deterministic and
independent of first-appearance order.  The derived vocabulary lists the
distinct label values (exactly those occurring in the input) in sorted order
without repetition, pairs them with the dense ids 0..k-1 in that order —
so for the example input the vocabulary maps "neg" to 0 and "pos" to 1 —
and two inputs with the same multiset of labels yield the same mapping. -/
theorem c6_label_vocabulary_sorted_deterministic (l l1 l2 : List String) :
    (l1.Perm l2 → label_to_id l1 = label_to_id l2) ∧
    List.Sorted (fun a b => a ≤ b) (unique_labels l) ∧
    (unique_labels l).Nodup ∧
    (∀ s, s ∈ unique_labels l ↔ s ∈ l) ∧
    (label_to_id l).map Prod.fst = unique_labels l ∧
    (label_to_id l).map Prod.snd = List.range (unique_labels l).length ∧
    label_to_id ["neg", "pos", "neg"] = [("neg", 0), ("pos", 1)] := by
  have hex : label_to_id ["neg", "pos", "neg"] = [("neg", 0), ("pos", 1)] := by
    have hnp : ("neg" : String) ≤ "pos" := by
      apply le_of_lt
      rw [String.lt_iff_toList_lt]
      decide
    have hpn : ¬ ("pos" : String) ≤ "neg" := by
      rw [not_le]
      rw [String.lt_iff_toList_lt]
      decide
    simp [label_to_id, unique_labels, hnp, hpn]
    decide
  refine ⟨?_, ?_, ?_, ?_, ?_, ?_, hex⟩
  · intro h
    unfold label_to_id
    rw [unique_labels_congr_perm l1 l2 h]
  · exact List.sorted_insertionSort _ _
  · exact ((List.perm_insertionSort _ _).nodup_iff).mpr l.nodup_dedup
  · intro s
    unfold unique_labels
    rw [(List.perm_insertionSort (fun a b => a ≤ b) l.dedup).mem_iff]
    exact List.mem_dedup
  · unfold label_to_id
    rw [List.map_map]
    exact List.enum_map_snd _
  · unfold label_to_id
    rw [List.map_map]
    exact List.enum_map_fst _

/-- Witness for C6: two concrete label lists with the same multiset of
values produce the same vocabulary. -/
theorem c6_witness :
    List.Perm ["neg", "pos", "neg"] ["pos", "neg", "neg"] ∧
    label_to_id ["neg", "pos", "neg"] = label_to_id ["pos", "neg", "neg"] :=
  ⟨by decide,
    (c6_label_vocabulary_sorted_deterministic [] ["neg", "pos", "neg"]
      ["pos", "neg", "neg"]).1 (by decide)⟩

/-- Auxiliary: deduplicating after mapping by a function injective on the
list's elements preserves the number of distinct values. -/
theorem dedup_length_map_of_injOn {α β : Type} [DecidableEq α] [DecidableEq β]
    (f : α → β) (l : List α)
    (hinj : ∀ x ∈ l, ∀ y ∈ l, f x = f y → x = y) :
    ((l.map f).dedup).length = l.dedup.length := by
  have hnd : (l.dedup.map f).Nodup :=
    List.Nodup.map_on
      (fun x hx y hy => hinj x (List.mem_dedup.mp hx) y (List.mem_dedup.mp hy))
      l.nodup_dedup
  have h1 : ((l.map f).dedup).Perm (l.dedup.map f) := by
    apply (List.perm_ext_iff_of_nodup ((l.map f).nodup_dedup) hnd).mpr
    intro b
    rw [List.mem_dedup, List.mem_map, List.mem_map]
    constructor
    · rintro ⟨a, ha, rfl⟩
      exact ⟨a, List.mem_dedup.mpr ha, rfl⟩
    · rintro ⟨a, ha, rfl⟩
      exact ⟨a, List.mem_dedup.mp ha, rfl⟩
  rw [h1.length_eq, List.length_map]

/-- Auxiliary: remapping an all-string label list to vocabulary ids keeps
its number of distinct values equal to the size of the vocabulary. -/
theorem dedup_length_map_indexOf (ss : List String) :
    ((ss.map (fun s => ((unique_labels ss).indexOf s : Int))).dedup).length
      = (unique_labels ss).length := by
  have hperm : (unique_labels ss).Perm ss.dedup := List.perm_insertionSort _ _
  have hmem : ∀ s ∈ ss, s ∈ unique_labels ss := fun s hs =>
    hperm.mem_iff.mpr (List.mem_dedup.mpr hs)
  have hinj : ∀ x ∈ ss, ∀ y ∈ ss,
      ((unique_labels ss).indexOf x : Int) = ((unique_labels ss).indexOf y : Int)
        → x = y := by
    intro x hx y hy hxy
    have hnat : (unique_labels ss).indexOf x = (unique_labels ss).indexOf y :=
      Nat.cast_inj.mp hxy
    exact (List.indexOf_inj (hmem x hx) (hmem y hy)).mp hnat
  rw [dedup_length_map_of_injOn _ _ hinj, hperm.length_eq]

/-- C7: whenever the label-normalization block of `train` succeeds (in the
string branch or the numeric branch alike), the `num_labels` value it leaves
in the configuration — and with which the model is then constructed — equals
the number of distinct values in the normalized label list, regardless of the
configured value. -/
theorem c7_num_labels_overridden_to_detected (labels : List PyLabel)
    (cfg : Int) (ls : List Int) (n : Int)
    (h : normalizeLabels labels cfg = .ok (ls, n)) :
    n = (ls.dedup.length : Int) := by
  cases labels with
  | nil => simp [normalizeLabels] at h
  | cons first rest =>
    cases first with
    | str s =>
      unfold normalizeLabels at h
      by_cases hall : (PyLabel.str s :: rest).all PyLabel.isStr
      · rw [if_pos hall, Except.ok.injEq, Prod.mk.injEq] at h
        obtain ⟨hls, hn⟩ := h
        rw [← hls, ← hn, dedup_length_map_indexOf]
        by_cases hc : cfg ≠
            ((unique_labels ((PyLabel.str s :: rest).filterMap getStr)).length : Int)
        · rw [if_pos hc]
        · rw [if_neg hc]
          exact not_not.mp hc
      · rw [if_neg hall] at h
        exact Except.noConfusion h
    | int m =>
      unfold normalizeLabels at h
      cases hco : coerceInts (PyLabel.int m :: rest) with
      | none =>
        rw [hco] at h
        exact Except.noConfusion h
      | some ints =>
        rw [hco, Except.ok.injEq, Prod.mk.injEq] at h
        obtain ⟨hls, hn⟩ := h
        have hlen : (unique_labels_int ints).length = ints.dedup.length :=
          (List.perm_insertionSort _ _).length_eq
        rw [← hls, ← hn, ← hlen]
        by_cases hc : cfg ≠ ((unique_labels_int ints).length : Int)
        · rw [if_pos hc]
        · rw [if_neg hc]
          exact not_not.mp hc

/-- Witness for C7: a configured label count of 5 against data with two
distinct labels is overridden to 2, the distinct count of the normalized
list. -/
theorem c7_witness :
    normalizeLabels [PyLabel.int 0, PyLabel.int 1] 5 = .ok ([0, 1], 2) ∧
    (2 : Int) = ((([0, 1] : List Int).dedup).length : Int) :=
  ⟨rfl,
    c7_num_labels_overridden_to_detected [PyLabel.int 0, PyLabel.int 1] 5
      [0, 1] 2 rfl⟩

/-- Auxiliary: a successful elementwise `int()` coercion preserves the list
length. -/
theorem coerceInts_length :
    ∀ (l : List PyLabel) (ints : List Int), coerceInts l = some ints →
      ints.length = l.length := by
  intro l
  induction l with
  | nil =>
    intro ints h
    simp only [coerceInts, Option.some.injEq] at h
    rw [← h]
    rfl
  | cons a t ih =>
    intro ints h
    unfold coerceInts at h
    cases hp : pyInt a with
    | none =>
      rw [hp] at h
      exact Option.noConfusion h
    | some n =>
      rw [hp] at h
      cases ht : coerceInts t with
      | none =>
        rw [ht] at h
        exact Option.noConfusion h
      | some ts =>
        rw [ht] at h
        have h2 : n :: ts = ints := by simpa using h
        rw [← h2, List.length_cons, ih ts ht, List.length_cons]

/-- Auxiliary: the elementwise `int()` coercion succeeds exactly when every
label coerces. -/
theorem coerceInts_isSome_iff (l : List PyLabel) :
    (∃ ints, coerceInts l = some ints) ↔ ∀ x ∈ l, (pyInt x).isSome = true := by
  induction l with
  | nil => simp [coerceInts]
  | cons a t ih =>
    constructor
    · rintro ⟨ints, h⟩
      unfold coerceInts at h
      cases hp : pyInt a with
      | none =>
        rw [hp] at h
        exact Option.noConfusion h
      | some n =>
        rw [hp] at h
        cases ht : coerceInts t with
        | none =>
          rw [ht] at h
          exact Option.noConfusion h
        | some ts =>
          intro x hx
          rcases List.mem_cons.mp hx with hxa | hxt
          · rw [hxa, hp]
            rfl
          · exact (ih.mp ⟨ts, ht⟩) x hxt
    · intro hall
      have hpa : (pyInt a).isSome = true := hall a (by simp)
      obtain ⟨n, hn⟩ := Option.isSome_iff_exists.mp hpa
      obtain ⟨ts, hts⟩ := ih.mpr (fun x hx => hall x (by simp [hx]))
      exact ⟨n :: ts, by simp [coerceInts, hn, hts]⟩

/-- Auxiliary: on an all-string label list, collecting the string values
preserves the length. -/
theorem filterMap_getStr_length :
    ∀ l : List PyLabel, l.all PyLabel.isStr = true →
      (l.filterMap getStr).length = l.length := by
  intro l
  induction l with
  | nil => intro _; rfl
  | cons a t ih =>
    intro h
    rw [List.all_cons, Bool.and_eq_true] at h
    cases a with
    | str s =>
      simp only [List.filterMap_cons, getStr]
      rw [List.length_cons, List.length_cons, ih h.2]
    | int m => exact absurd h.1 (by simp [PyLabel.isStr])

/-- C10 counterexample: a dataset whose labels mix a string with a
non-string does not necessarily make the chosen branch raise — with the
numeric branch selected by an integer first label, the numeric string "2" is
coerced successfully and normalization completes. -/
theorem c10_counterexample_mixed_types_succeed :
    normalizeLabels [PyLabel.int 1, PyLabel.str "2"] 2 = .ok ([1, 2], 2) := rfl

/-- C10 (amended): the normalization branch is decided solely by the type of
the first loaded label; on an empty dataset the `labels[0]` check itself
raises; when the first label is a string, any non-string label makes the
string branch raise; when the first label is not a string, the numeric
branch succeeds exactly when every label coerces with `int()` (so a
non-numeric string raises, while a numeric string is coerced successfully);
and a successful normalization is never partial — it maps every loaded
label. -/
theorem c10_branch_on_first_label (labels : List PyLabel) (cfg : Int)
    (s : String) (m : Int) :
    (normalizeLabels [] cfg = .error .indexError) ∧
    (labels.head? = some (PyLabel.str s) → labels.all PyLabel.isStr ≠ true →
      normalizeLabels labels cfg = .error .typeError) ∧
    (labels.head? = some (PyLabel.int m) →
      ((∃ ls n, normalizeLabels labels cfg = .ok (ls, n)) ↔
        ∀ x ∈ labels, (pyInt x).isSome = true)) ∧
    (∀ ls n, normalizeLabels labels cfg = .ok (ls, n) →
      ls.length = labels.length) := by
  refine ⟨rfl, ?_, ?_, ?_⟩
  · intro hh hall
    cases labels with
    | nil => exact Option.noConfusion hh
    | cons first rest =>
      have hfirst : first = PyLabel.str s := by
        simpa using hh
      subst hfirst
      unfold normalizeLabels
      rw [if_neg hall]
  · intro hh
    cases labels with
    | nil => exact Option.noConfusion hh
    | cons first rest =>
      have hfirst : first = PyLabel.int m := by
        simpa using hh
      subst hfirst
      rw [← coerceInts_isSome_iff]
      constructor
      · rintro ⟨ls, n, h⟩
        unfold normalizeLabels at h
        cases hco : coerceInts (PyLabel.int m :: rest) with
        | none =>
          rw [hco] at h
          exact Except.noConfusion h
        | some ints => exact ⟨ints, rfl⟩
      · rintro ⟨ints, hco⟩
        refine ⟨ints, if cfg ≠ ((unique_labels_int ints).length : Int)
          then ((unique_labels_int ints).length : Int) else cfg, ?_⟩
        unfold normalizeLabels
        rw [hco]
  · intro ls n h
    cases labels with
    | nil => exact Except.noConfusion h
    | cons first rest =>
      cases first with
      | str s2 =>
        unfold normalizeLabels at h
        by_cases hall : (PyLabel.str s2 :: rest).all PyLabel.isStr
        · rw [if_pos hall, Except.ok.injEq, Prod.mk.injEq] at h
          rw [← h.1, List.length_map]
          exact filterMap_getStr_length _ hall
        · rw [if_neg hall] at h
          exact Except.noConfusion h
      | int m2 =>
        unfold normalizeLabels at h
        cases hco : coerceInts (PyLabel.int m2 :: rest) with
        | none =>
          rw [hco] at h
          exact Except.noConfusion h
        | some ints =>
          rw [hco, Except.ok.injEq, Prod.mk.injEq] at h
          rw [← h.1]
          exact coerceInts_length _ ints hco

/-- Witness for C10 (amended): with a string first label and an integer
among the labels, the string branch raises the mixed-type sort error. -/
theorem c10_witness :
    normalizeLabels [PyLabel.str "a", PyLabel.int 1] 2 = .error .typeError :=
  (c10_branch_on_first_label [PyLabel.str "a", PyLabel.int 1] 2 "a" 0).2.1
    rfl (by decide)

/-- Auxiliary: the best-so-far F1 at the start of the next epoch is the
maximum of the previous best and the F1 just observed. -/
theorem bestBefore_succ (f1 : Nat → ℚ) (e : Nat) :
    bestBefore f1 (e + 1) = max (bestBefore f1 e) (f1 e) := by
  unfold bestBefore
  rw [List.range_succ, List.foldl_append]
  rfl

/-- Auxiliary: the best-so-far F1 never goes below its initial value 0. -/
theorem bestBefore_nonneg (f1 : Nat → ℚ) (e : Nat) : 0 ≤ bestBefore f1 e := by
  induction e with
  | zero => exact le_refl 0
  | succ k ih =>
    rw [bestBefore_succ]
    exact le_trans ih (le_max_left _ _)

/-- Auxiliary: the epoch loop never rewinds the epoch counter. -/
theorem le_runEpochs_epochsRun (f1 : Nat → ℚ) (p : Nat) :
    ∀ (n e : Nat) (b : ℚ) (c : Nat) (a : List (Nat × ℚ)),
      e ≤ (runEpochs f1 p n e b c a).epochsRun := by
  intro n
  induction n with
  | zero => intro e b c a; exact le_refl e
  | succ k ih =>
    intro e b c a
    unfold runEpochs
    by_cases h1 : b < f1 e
    · rw [if_pos h1]
      by_cases h2 : p ≤ 0
      · rw [if_pos h2]
        exact Nat.le_succ e
      · rw [if_neg h2]
        exact le_trans (Nat.le_succ e) (ih (e + 1) (f1 e) 0 _)
    · rw [if_neg h1]
      by_cases h2 : p ≤ c + 1
      · rw [if_pos h2]
        exact Nat.le_succ e
      · rw [if_neg h2]
        exact le_trans (Nat.le_succ e) (ih (e + 1) b (c + 1) a)

/-- Auxiliary: with fuel remaining, the epoch loop executes the current
epoch. -/
theorem lt_runEpochs_epochsRun (f1 : Nat → ℚ) (p k e : Nat) (b : ℚ)
    (c : Nat) (a : List (Nat × ℚ)) :
    e < (runEpochs f1 p (k + 1) e b c a).epochsRun := by
  unfold runEpochs
  by_cases h1 : b < f1 e
  · rw [if_pos h1]
    by_cases h2 : p ≤ 0
    · rw [if_pos h2]
      exact Nat.lt_succ_self e
    · rw [if_neg h2]
      exact lt_of_lt_of_le (Nat.lt_succ_self e)
        (le_runEpochs_epochsRun f1 p k (e + 1) (f1 e) 0 _)
  · rw [if_neg h1]
    by_cases h2 : p ≤ c + 1
    · rw [if_pos h2]
      exact Nat.lt_succ_self e
    · rw [if_neg h2]
      exact lt_of_lt_of_le (Nat.lt_succ_self e)
        (le_runEpochs_epochsRun f1 p k (e + 1) b (c + 1) a)

/-- Auxiliary invariant: from any state whose best-so-far matches the epochs
already seen, the checkpoints produced by the rest of the loop are exactly
the executed epochs whose F1 strictly exceeds the best F1 before them. -/
theorem runEpochs_checkpoints_eq (f1 : Nat → ℚ) (p : Nat) :
    ∀ (n e : Nat) (b : ℚ) (c : Nat) (a : List (Nat × ℚ)),
      b = bestBefore f1 e →
      (runEpochs f1 p n e b c a).checkpoints
        = a.reverse ++
          ((List.range' e ((runEpochs f1 p n e b c a).epochsRun - e)).filter
            (fun j => decide (bestBefore f1 j < f1 j))).map (fun j => (j, f1 j)) := by
  intro n
  induction n with
  | zero =>
    intro e b c a hb
    simp [runEpochs]
  | succ k ih =>
    intro e b c a hb
    subst hb
    by_cases h1 : bestBefore f1 e < f1 e
    · have hb1 : bestBefore f1 (e + 1) = f1 e := by
        rw [bestBefore_succ]
        exact max_eq_right (le_of_lt h1)
      by_cases h2 : p ≤ 0
      · have hrun : runEpochs f1 p (k + 1) e (bestBefore f1 e) c a
            = ⟨((e, f1 e) :: a).reverse, e + 1⟩ := by
          unfold runEpochs
          rw [if_pos h1, if_pos h2]
        rw [hrun]
        have hd : e + 1 - e = 1 := by omega
        simp only [hd, List.range'_one, List.filter_cons, decide_eq_true h1,
          List.filter_nil, List.map_cons, List.map_nil, List.reverse_cons,
          List.append_assoc, List.nil_append]
        rfl
      · have hrun : runEpochs f1 p (k + 1) e (bestBefore f1 e) c a
            = runEpochs f1 p k (e + 1) (f1 e) 0 ((e, f1 e) :: a) := by
          simp only [runEpochs]
          rw [if_pos h1, if_neg h2]
        rw [hrun, ih (e + 1) (f1 e) 0 ((e, f1 e) :: a) hb1.symm]
        have he1 : e + 1 ≤ (runEpochs f1 p k (e + 1) (f1 e) 0 ((e, f1 e) :: a)).epochsRun :=
          le_runEpochs_epochsRun f1 p k (e + 1) (f1 e) 0 _
        have hd : (runEpochs f1 p k (e + 1) (f1 e) 0 ((e, f1 e) :: a)).epochsRun - e
            = ((runEpochs f1 p k (e + 1) (f1 e) 0 ((e, f1 e) :: a)).epochsRun - (e + 1)) + 1 := by
          omega
        rw [hd, List.range'_succ, List.filter_cons, decide_eq_true h1]
        simp [List.reverse_cons, List.append_assoc]
    · have hb1 : bestBefore f1 (e + 1) = bestBefore f1 e := by
        rw [bestBefore_succ]
        exact max_eq_left (not_lt.mp h1)
      by_cases h2 : p ≤ c + 1
      · have hrun : runEpochs f1 p (k + 1) e (bestBefore f1 e) c a
            = ⟨a.reverse, e + 1⟩ := by
          unfold runEpochs
          rw [if_neg h1, if_pos h2]
        rw [hrun]
        have hd : e + 1 - e = 1 := by omega
        simp [hd, List.range'_one, List.filter_cons, decide_eq_false h1]
      · have hrun : runEpochs f1 p (k + 1) e (bestBefore f1 e) c a
            = runEpochs f1 p k (e + 1) (bestBefore f1 e) (c + 1) a := by
          simp only [runEpochs]
          rw [if_neg h1, if_neg h2]
        rw [hrun, ih (e + 1) (bestBefore f1 e) (c + 1) a hb1.symm]
        have he1 : e + 1 ≤ (runEpochs f1 p k (e + 1) (bestBefore f1 e) (c + 1) a).epochsRun :=
          le_runEpochs_epochsRun f1 p k (e + 1) (bestBefore f1 e) (c + 1) a
        have hd : (runEpochs f1 p k (e + 1) (bestBefore f1 e) (c + 1) a).epochsRun - e
            = ((runEpochs f1 p k (e + 1) (bestBefore f1 e) (c + 1) a).epochsRun - (e + 1)) + 1 := by
          omega
        rw [hd, List.range'_succ, List.filter_cons, decide_eq_false h1]
        simp

/-- C8: a checkpoint is written in an epoch exactly when that epoch's
validation F1 strictly exceeds the best F1 seen so far in the run (which
starts at 0), i.e. the checkpoint record of a run is precisely the improving
epochs among those executed; consequently, when no executed epoch improves
on the best-so-far, no checkpoint file is written at all. -/
theorem c8_checkpoint_iff_improvement (f1 : Nat → ℚ) (epochs patience : Nat) :
    (trainLoop f1 epochs patience).checkpoints
      = ((List.range (trainLoop f1 epochs patience).epochsRun).filter
          (fun e => decide (bestBefore f1 e < f1 e))).map (fun e => (e, f1 e)) ∧
    ((∀ e, e < (trainLoop f1 epochs patience).epochsRun →
        f1 e ≤ bestBefore f1 e) →
      (trainLoop f1 epochs patience).checkpoints = []) := by
  have hmain : (trainLoop f1 epochs patience).checkpoints
      = ((List.range (trainLoop f1 epochs patience).epochsRun).filter
          (fun e => decide (bestBefore f1 e < f1 e))).map (fun e => (e, f1 e)) := by
    have h := runEpochs_checkpoints_eq f1 patience epochs 0 0 0 [] rfl
    rw [show trainLoop f1 epochs patience
        = runEpochs f1 patience epochs 0 0 0 [] from rfl, h]
    rw [Nat.sub_zero, List.reverse_nil, List.nil_append, List.range_eq_range']
  refine ⟨hmain, ?_⟩
  intro hno
  rw [hmain]
  have hfil : (List.range (trainLoop f1 epochs patience).epochsRun).filter
      (fun e => decide (bestBefore f1 e < f1 e)) = [] := by
    apply List.filter_eq_nil_iff.mpr
    intro e he
    have hlt := List.mem_range.mp he
    simp only [decide_eq_true_eq]
    exact not_lt.mpr (hno e hlt)
  rw [hfil, List.map_nil]

/-- Witness for C8: with a constant-zero F1 sequence (never exceeding the
initial best of 0), the run writes no checkpoint. -/
theorem c8_witness :
    (trainLoop (fun _ => (0 : ℚ)) 3 3).checkpoints = [] :=
  (c8_checkpoint_iff_improvement (fun _ => (0 : ℚ)) 3 3).2
    (fun e _ => bestBefore_nonneg (fun _ => (0 : ℚ)) e)

/-- Auxiliary: once every remaining epoch is non-improving, the loop runs
out of patience within `patience - counter` further epochs. -/
theorem runEpochs_stagnant (f1 : Nat → ℚ) (p : Nat) :
    ∀ (n s : Nat) (b : ℚ) (c : Nat) (a : List (Nat × ℚ)),
      c < p → b = bestBefore f1 s →
      (∀ j, s ≤ j → j < s + (p - c) → f1 j ≤ bestBefore f1 j) →
      (runEpochs f1 p n s b c a).epochsRun ≤ s + (p - c) := by
  intro n
  induction n with
  | zero =>
    intro s b c a hc hb hstag
    exact Nat.le_add_right s _
  | succ k ih =>
    intro s b c a hc hb hstag
    have hfs : f1 s ≤ bestBefore f1 s := hstag s (le_refl s) (by omega)
    have hni : ¬ b < f1 s := by
      rw [hb]
      exact not_lt.mpr hfs
    unfold runEpochs
    rw [if_neg hni]
    by_cases h2 : p ≤ c + 1
    · rw [if_pos h2]
      show s + 1 ≤ s + (p - c)
      omega
    · rw [if_neg h2]
      have hb2 : b = bestBefore f1 (s + 1) := by
        rw [bestBefore_succ, max_eq_left hfs]
        exact hb
      have hrec := ih (s + 1) b (c + 1) a (by omega) hb2
        (fun j hj1 hj2 => hstag j (by omega) (by omega))
      omega

/-- Auxiliary: after an improvement at epoch `e` followed by only
non-improving epochs, the loop halts within `patience` further epochs. -/
theorem runEpochs_halt (f1 : Nat → ℚ) (p e : Nat)
    (himp : bestBefore f1 e < f1 e)
    (hstag : ∀ j, e < j → j ≤ e + p → f1 j ≤ bestBefore f1 j) :
    ∀ (n s : Nat) (b : ℚ) (c : Nat) (a : List (Nat × ℚ)),
      s ≤ e → b = bestBefore f1 s →
      e < (runEpochs f1 p n s b c a).epochsRun →
      (runEpochs f1 p n s b c a).epochsRun ≤ e + 1 + p := by
  intro n
  induction n with
  | zero =>
    intro s b c a hse hb hrun
    simp only [runEpochs] at hrun ⊢
    omega
  | succ k ih =>
    intro s b c a hse hb hrun
    rcases Nat.lt_or_ge s e with hlt | hge
    · unfold runEpochs at hrun ⊢
      by_cases h1 : b < f1 s
      · rw [if_pos h1] at hrun ⊢
        by_cases h2 : p ≤ 0
        · rw [if_pos h2] at hrun ⊢
          simp only at hrun ⊢
          omega
        · rw [if_neg h2] at hrun ⊢
          have hb2 : f1 s = bestBefore f1 (s + 1) := by
            rw [bestBefore_succ]
            exact (max_eq_right (le_of_lt (hb ▸ h1))).symm
          exact ih (s + 1) (f1 s) 0 _ (by omega) hb2 hrun
      · rw [if_neg h1] at hrun ⊢
        by_cases h2 : p ≤ c + 1
        · rw [if_pos h2] at hrun ⊢
          simp only at hrun ⊢
          omega
        · rw [if_neg h2] at hrun ⊢
          have hb2 : b = bestBefore f1 (s + 1) := by
            rw [bestBefore_succ]
            rw [max_eq_left (not_lt.mp (hb ▸ h1))]
            exact hb
          exact ih (s + 1) b (c + 1) a (by omega) hb2 hrun
    · have hs : s = e := by omega
      subst hs
      have h1 : b < f1 s := hb ▸ himp
      unfold runEpochs
      rw [if_pos h1]
      by_cases h2 : p ≤ 0
      · rw [if_pos h2]
        show s + 1 ≤ s + 1 + p
        omega
      · rw [if_neg h2]
        have hb2 : f1 s = bestBefore f1 (s + 1) := by
          rw [bestBefore_succ]
          exact (max_eq_right (le_of_lt (hb ▸ h1))).symm
        have hst := runEpochs_stagnant f1 p k (s + 1) (f1 s) 0 ((s, f1 s) :: a)
          (by omega) hb2 (fun j hj1 hj2 => hstag j (by omega) (by omega))
        omega

/-- C9: the early-stopping counter resets on improvement and counts
non-improving epochs, so if epoch `e` improves on the best-so-far and every
later epoch up to `e + patience` does not, the loop halts at or before the
epoch with zero-based index `e + patience` — i.e. it runs at most
`e + 1 + patience` epochs — regardless of the configured total epoch
count. -/
theorem c9_early_stopping (f1 : Nat → ℚ) (epochs patience e : Nat)
    (himp : bestBefore f1 e < f1 e)
    (hstag : ∀ j, e < j → j ≤ e + patience → f1 j ≤ bestBefore f1 j)
    (hrun : e < (trainLoop f1 epochs patience).epochsRun) :
    (trainLoop f1 epochs patience).epochsRun ≤ e + 1 + patience :=
  runEpochs_halt f1 patience e himp hstag epochs 0 0 0 [] (Nat.zero_le e)
    rfl hrun

/-- Witness for C9: with F1 1 at epoch 0 and 0 afterwards, patience 3 and a
configured epoch count of 10, the run executes epoch 0 and halts within 4
epochs. -/
theorem c9_witness :
    0 < (trainLoop (fun n => if n = 0 then (1 : ℚ) else 0) 10 3).epochsRun ∧
    (trainLoop (fun n => if n = 0 then (1 : ℚ) else 0) 10 3).epochsRun
      ≤ 0 + 1 + 3 := by
  have hrun : 0 < (trainLoop (fun n => if n = 0 then (1 : ℚ) else 0) 10 3).epochsRun :=
    lt_runEpochs_epochsRun (fun n => if n = 0 then (1 : ℚ) else 0) 3 9 0 0 0 []
  refine ⟨hrun, c9_early_stopping _ 10 3 0 ?_ ?_ hrun⟩
  · show bestBefore (fun n => if n = 0 then (1 : ℚ) else 0) 0 < 1
    norm_num [bestBefore]
  · intro j hj1 hj2
    show (if j = 0 then (1 : ℚ) else 0) ≤ _
    rw [if_neg (by omega : ¬ j = 0)]
    exact bestBefore_nonneg _ j

end TrainerTheorems
